import Mathlib

/-! Web-Proxy-Server: a shallow embedding of `Proxy.go`.

The Go program keeps four process-wide maps (`blacklist`, `cache`, `webTimes`,
`cachetimes`) and one `sync.RWMutex`.  Every function of `Proxy.go` that the
properties below talk about is translated into a Lean function that takes the
pieces of global state it reads and returns the pieces it writes.

Conventions of the embedding:

* a Go `string` is a `List Char`.  The only slicing done by the program cuts at
  the offsets of the ASCII bytes `.` and `:`; these are always character
  boundaries, so slicing by character offset yields the same substring;
* a Go `map[K]V` is an association list (`GoMap`); `m[k]` reads the first
  binding, `m[k] = v` replaces every binding of `k`, `delete(m, k)` removes
  every binding of `k`, `range m` walks the list (Go leaves the order
  unspecified, the theorems hold for every order);
* a `time.Time` is an `Int` count of nanoseconds; `time.Now()` is a parameter
  of the function that calls it; a `time.Duration` is an `int64`, and
  `Time.Sub` saturates;
* the network (`client.Do`, `ioutil.ReadAll`, `net.DialTimeout`, `Hijack`) is a
  parameter giving the result of each call; what the handler does to the
  outside world is recorded in a list of `Event`s;
* `log.Panic` is the `panicked` outcome of a handler.
-/

namespace Proxy

/-! ## Go strings and maps -/

/-- A Go string. -/
abbrev GoString := List Char

/-- A Go `map[K]V`, as a list of bindings. -/
abbrev GoMap (κ : Type) (ν : Type) := List (κ × ν)

namespace GoMap

variable {κ ν : Type} [DecidableEq κ]

/-- The comma-ok read `v, ok := m[k]`: `none` when `k` has no binding. -/
def get (m : GoMap κ ν) (k : κ) : Option ν :=
  match m with
  | [] => none
  | (k', v) :: rest => if k' = k then some v else get rest k

/-- The builtin `delete(m, k)`. -/
def del (m : GoMap κ ν) (k : κ) : GoMap κ ν :=
  m.filter (fun p => decide (p.1 ≠ k))

/-- The assignment `m[k] = v`. -/
def set (m : GoMap κ ν) (k : κ) (v : ν) : GoMap κ ν :=
  (k, v) :: del m k

/-- The keys of the map, in iteration order. -/
def keys (m : GoMap κ ν) : List κ := m.map Prod.fst

end GoMap

/-! ## Time -/

/-- Largest `int64`. -/
def maxInt64 : Int := 9223372036854775807

/-- Smallest `int64`. -/
def minInt64 : Int := -9223372036854775808

/-- The method `Time.Sub`: the difference `t - u` as a `Duration`, saturated to
the `int64` range. -/
def timeSub (t u : Int) : Int :=
  if t - u > maxInt64 then maxInt64
  else if t - u < minInt64 then minInt64
  else t - u

/-- The function `time.Since(t)`, which is `time.Now().Sub(t)`. -/
def timeSince (now t : Int) : Int := timeSub now t

/-! ## The cache (Proxy.go lines 20-34, 96-112) -/

/-- The constant `CACHE_DURATION` of line 20, with the value written there. -/
def CACHE_DURATION : Int := 2000000000000

/-- One second, in nanoseconds (`time.Second`). -/
def second : Int := 1000000000

/-- The struct `website`. -/
structure website where
  headers : GoMap GoString GoString
  body : List Nat
  timeFetched : Int
deriving DecidableEq, Repr

/-- The type of the global `cache`: `map[string]*website`; a `nil` pointer is
`none`. -/
abbrev Cache := GoMap GoString (Option website)

/-- The function `cached` (lines 100-112).  Returns the boolean and the cache
after the call.  `now` is the clock read by `time.Since`.  The `&&` chain
short-circuits, so `timeFetched` is read only from a non-nil pointer. -/
def cached (cache : Cache) (site : GoString) (now : Int) : Bool × Cache :=
  match cache.get site with
  | some (some w) =>
    if timeSince now w.timeFetched < CACHE_DURATION then (true, cache)
    else (false, cache.del site)
  | _ => (false, cache.del site)

/-- The function `newSite` (lines 39-48).  `now` is the clock read by
`time.Now()`; `header` is `res.Header`, a `map[string][]string`.  The nested
loops assign `site.headers[k] = y` for every value `y` of every name `k`. -/
def newSite (now : Int) (header : GoMap GoString (List GoString))
    (siteResponse : List Nat) : website :=
  { headers := header.foldl
      (fun h p => p.2.foldl (fun h y => GoMap.set h p.1 y) h) []
    body := siteResponse
    timeFetched := now }

/-! ## The blacklist (lines 30, 50-94) -/

/-- The type of the global `blacklist`: `map[string]bool`. -/
abbrev Blacklist := GoMap GoString Bool

/-- The function `add2Blacklist` (lines 54-62); the console messages are not
modelled. -/
def add2Blacklist (blacklist : Blacklist) (site : GoString) : Blacklist :=
  match blacklist.get site with
  | none => blacklist.set site true
  | some _ => blacklist

/-- The function `RmvFromBlacklist` (lines 68-76). -/
def RmvFromBlacklist (blacklist : Blacklist) (site : GoString) : Blacklist :=
  match blacklist.get site with
  | none => blacklist
  | some _ => blacklist.del site

/-- Matches of the regular expression `\.` in `site` from offset `i` on. -/
def findDotsFrom : GoString → Nat → List (Nat × Nat)
  | [], _ => []
  | c :: cs, i =>
    if c = '.' then (i, i + 1) :: findDotsFrom cs (i + 1)
    else findDotsFrom cs (i + 1)

/-- The call `twoDots.FindAllStringIndex(site, -1)`: the `[start, end]` offsets
of every `.` of `site`, left to right. -/
def FindAllStringIndex (site : GoString) : List (Nat × Nat) :=
  findDotsFrom site 0

/-- The call `strings.Index(site, ":")`: the offset of the first `:`, or `-1`. -/
def stringsIndexColon : GoString → Int
  | [] => -1
  | c :: cs =>
    if c = ':' then 0
    else if stringsIndexColon cs > -1 then stringsIndexColon cs + 1 else -1

/-- Lines 83-87 of `blacklisted`: with two or more dots, `site` becomes the text
after the last but one dot (`site[sub[0]+1:]`). -/
def cutSubdomains (site : GoString) : GoString :=
  let dots := FindAllStringIndex site
  if h : dots.length > 1 then
    let sub := dots[dots.length - 2]
    site.drop (sub.1 + 1)
  else site

/-- Lines 88-91 of `blacklisted`: `site` is cut at its first `:`, if any
(`site[:port]`). -/
def cutPort (site : GoString) : GoString :=
  let port := stringsIndexColon site
  if port > -1 then site.take port.toNat else site

/-- The string that `blacklisted` looks up at line 92. -/
def blacklistKey (site : GoString) : GoString :=
  cutPort (cutSubdomains site)

/-- The function `blacklisted` (lines 82-94). -/
def blacklisted (blacklist : Blacklist) (site : GoString) : Bool :=
  (blacklist.get (blacklistKey site)).isSome

/-! ### Host names as the specification describes them -/

/-- The labels `l1, ..., ln` written as the host name `l1.l2. ... .ln`. -/
def joinLabels : List GoString → GoString
  | [] => []
  | [l] => l
  | l :: rest => l ++ '.' :: joinLabels rest

/-- An optional trailing `:port`. -/
def portSuffix : Option GoString → GoString
  | none => []
  | some port => ':' :: port

/-- The normalized host in the words of the specification: the host without
its port when it has at most two labels, its last two labels otherwise. -/
def normalizedHost (labels : List GoString) : GoString :=
  if labels.length ≤ 2 then joinLabels labels
  else joinLabels (labels.drop (labels.length - 2))

/-! ## The HTTP side: requests, the response writer, the network -/

/-- What the handlers read of an inbound `*http.Request`. -/
structure Request where
  /-- The field `request.Method`. -/
  method : GoString
  /-- The value of `request.URL.String()`. -/
  url : GoString
  /-- The field `request.Host`. -/
  host : GoString
deriving DecidableEq, Repr

/-- An `http.Header`: `map[string][]string`. -/
abbrev Header := GoMap GoString (List GoString)

/-- The method `Header.Set`: the name gets the single value `v`.  Names reach
`Set` from `res.Header` or from literals and are in canonical form already. -/
def Header.Set (h : Header) (k v : GoString) : Header := GoMap.set h k [v]

/-- The state of an `http.ResponseWriter`. -/
structure ResponseWriter where
  /-- The map returned by `writer.Header()`. -/
  header : Header
  /-- The status code and the headers sent by the first `WriteHeader`, `none`
  while nothing has been sent. -/
  sent : Option (Nat × Header)
  /-- The body bytes written so far. -/
  body : List Nat
deriving DecidableEq, Repr

/-- A writer nothing has been written to. -/
def ResponseWriter.fresh : ResponseWriter := { header := [], sent := none, body := [] }

/-- The method `WriteHeader(code)`: sends the status line and the current
headers; a second call is ignored by `net/http`. -/
def ResponseWriter.WriteHeader (w : ResponseWriter) (code : Nat) : ResponseWriter :=
  match w.sent with
  | none => { w with sent := some (code, w.header) }
  | some _ => w

/-- The method `Write(data)`, reached through `io.WriteString` and
`fmt.Fprintln`: an implicit `WriteHeader(200)` when nothing was sent yet, then
the bytes. -/
def ResponseWriter.Write (w : ResponseWriter) (data : List Nat) : ResponseWriter :=
  let w1 := w.WriteHeader 200
  { w1 with body := w1.body ++ data }

/-- The bytes of an ASCII string literal. -/
def asciiBytes (s : String) : List Nat := s.toList.map Char.toNat

/-- The library function `http.Error(w, error, code)`. -/
def httpError (w : ResponseWriter) (error : List Nat) (code : Nat) : ResponseWriter :=
  let h1 := Header.Set w.header ("Content-Type".toList) ("text/plain; charset=utf-8".toList)
  let h2 := Header.Set h1 ("X-Content-Type-Options".toList) ("nosniff".toList)
  (({ w with header := h2 } : ResponseWriter).WriteHeader code).Write (error ++ [10])

/-- The status constant `http.StatusOK`. -/
def StatusOK : Nat := 200
/-- The status constant `http.StatusForbidden`. -/
def StatusForbidden : Nat := 403
/-- The status constant `http.StatusInternalServerError`. -/
def StatusInternalServerError : Nat := 500
/-- The status constant `http.StatusServiceUnavailable`. -/
def StatusServiceUnavailable : Nat := 503
/-- The method constant `http.MethodConnect`. -/
def MethodConnect : GoString := "CONNECT".toList

/-- What `HTTPHandler` reads of the `*http.Response` returned by `client.Do`. -/
structure Response where
  /-- The value of `res.Request.URL.String()`: the URL of the request that
  obtained this response, which is the last one when the client followed
  redirects. -/
  requestURL : GoString
  /-- The field `res.Header`. -/
  header : Header
  /-- The result of `ioutil.ReadAll(res.Body)`: the bytes, or the message of
  the error. -/
  readAll : Except (List Nat) (List Nat)

/-- A network connection: whether its dynamic type is `*net.TCPConn`. -/
structure Conn where
  isTCP : Bool
deriving DecidableEq, Repr

/-- The outside world as one request sees it: the result of each call the
handlers make to it (an error is the bytes of its `Error()` message). -/
structure Network where
  /-- The result of `client.Do(request)`. -/
  clientDo : Except (List Nat) Response
  /-- The result of `net.DialTimeout("tcp", request.Host, 10s)`. -/
  dial : Except (List Nat) Conn
  /-- Whether the writer implements `http.Hijacker`. -/
  hijacker : Bool
  /-- The result of `hijack.Hijack()`. -/
  hijack : Except (List Nat) Conn

/-- What a handler does to the outside world, in order. -/
inductive Event where
  /-- The call `client.Do(request)` for the request of that URL. -/
  | fetch (url : GoString)
  /-- The call `net.DialTimeout("tcp", host, _)`. -/
  | dial (host : GoString)
  /-- The call `hijack.Hijack()`. -/
  | hijack
  /-- A statement `go copyTCP(_, _)`; `toDest` is true for the copy towards the
  origin (line 244). -/
  | copyTCP (toDest : Bool)
deriving DecidableEq, Repr

/-- The four maps of lines 30-33. -/
structure Globals where
  blacklist : Blacklist
  cache : Cache
  webTimes : GoMap GoString Int
  cachetimes : GoMap GoString Int
deriving DecidableEq, Repr

/-- The state a handler leaves behind.  `panicked` holds the message when the
handler was left by `log.Panic` (or a nil dereference) instead of returning. -/
structure Run where
  globals : Globals
  writer : ResponseWriter
  events : List Event
  panicked : Option (List Nat)
deriving DecidableEq, Repr

/-- The clock readings of one `mainHandler` call, in program order. -/
structure Clock where
  /-- Read by `time.Since` inside `cached` (line 104). -/
  lookup : Int
  /-- Read by `timer := time.Now()` (line 263). -/
  timer : Int
  /-- Read by `time.Now()` inside `newSite` (line 41). -/
  store : Int
  /-- Read by `fin := time.Since(timer)` (line 279). -/
  fin : Int

/-- The two nested loops of lines 184-188: `writer.Header().Set(i, z)` for every
value `z` of every name `i` of `res.Header`. -/
def copyHeaders (h : Header) (resHeader : Header) : Header :=
  resHeader.foldl (fun h p => p.2.foldl (fun h z => Header.Set h p.1 z) h) h

/-- The function `HTTPHandler` (lines 176-201). -/
def HTTPHandler (net : Network) (now : Int) (g : Globals) (writer : ResponseWriter)
    (request : Request) : Run :=
  match net.clientDo with
  | .error e =>
    { globals := g, writer := writer, events := [Event.fetch request.url], panicked := some e }
  | .ok res =>
    let writer1 := { writer with header := copyHeaders writer.header res.header }
    match res.readAll with
    | .error e =>
      { globals := g, writer := writer1, events := [Event.fetch request.url],
        panicked := some e }
    | .ok bodyBytes =>
      let writer2 := writer1.Write bodyBytes
      let cache1 := g.cache.set res.requestURL (some (newSite now res.header bodyBytes))
      { globals := { g with cache := cache1 }, writer := writer2,
        events := [Event.fetch request.url], panicked := none }

/-- The function `HTTPSHandler` (lines 217-248). -/
def HTTPSHandler (net : Network) (g : Globals) (writer : ResponseWriter)
    (request : Request) : Run :=
  match net.dial with
  | .error e =>
    { globals := g, writer := httpError writer e StatusServiceUnavailable,
      events := [Event.dial request.host], panicked := none }
  | .ok dest =>
    let writer1 := writer.WriteHeader StatusOK
    if net.hijacker then
      match net.hijack with
      | .error e =>
        -- `client` is nil, so the assertion `client.(*net.TCPConn)` fails
        { globals := g, writer := httpError writer1 e StatusServiceUnavailable,
          events := [Event.dial request.host, Event.hijack], panicked := none }
      | .ok client =>
        { globals := g, writer := writer1,
          events := [Event.dial request.host, Event.hijack] ++
            (if dest.isTCP && client.isTCP then [Event.copyTCP true, Event.copyTCP false]
             else []),
          panicked := none }
    else
      { globals := g,
        writer := httpError writer1 (asciiBytes "Hijacking is not supported")
          StatusInternalServerError,
        events := [Event.dial request.host], panicked := none }

/-- The loop of lines 271-273: `writer.Header().Set(i, y)` for every binding of
`site.headers`. -/
def copySiteHeaders (h : Header) (headers : GoMap GoString GoString) : Header :=
  headers.foldl (fun h p => Header.Set h p.1 p.2) h

/-- The message of the runtime panic of a nil pointer dereference. -/
def nilDereference : List Nat :=
  asciiBytes "runtime error: invalid memory address or nil pointer dereference"

/-- Lines 279-292: the elapsed time goes to `cachetimes` or to `webTimes`. -/
def recordTime (g : Globals) (isCached : Bool) (url : GoString) (fin : Int) : Globals :=
  if isCached then { g with cachetimes := g.cachetimes.set url fin }
  else { g with webTimes := g.webTimes.set url fin }

/-- The function `mainHandler` (lines 254-300); the log lines are not modelled. -/
def mainHandler (net : Network) (clock : Clock) (g : Globals) (writer : ResponseWriter)
    (request : Request) : Run :=
  let url := request.url
  let host := request.host
  if !blacklisted g.blacklist host then
    let c := cached g.cache url clock.lookup
    let isCached := c.1
    let g1 := { g with cache := c.2 }
    let r : Run :=
      if MethodConnect = request.method then HTTPSHandler net g1 writer request
      else if isCached then
        match g1.cache.get url with
        | some (some site) =>
          let writer1 := { writer with header := copySiteHeaders writer.header site.headers }
          { globals := g1, writer := writer1.Write site.body, events := [], panicked := none }
        | _ => { globals := g1, writer := writer, events := [], panicked := some nilDereference }
      else HTTPHandler net clock.store g1 writer request
    match r.panicked with
    | some _ => r
    | none =>
      { r with globals := recordTime r.globals isCached url (timeSince clock.fin clock.timer) }
  else
    { globals := g, writer := writer.WriteHeader StatusForbidden, events := [], panicked := none }

/-! ## The sweeper and the mutex (lines 28, 302-316) -/

/-- The state of the `sync.RWMutex` of line 28: how many read locks are held,
and whether the write lock is held. -/
structure RWMutex where
  readers : Nat
  writer : Bool
deriving DecidableEq, Repr

/-- The result of one mutex call: the call returns, or the caller has to wait
until other holders release, or the runtime aborts (unlock of an unlocked
mutex). -/
inductive LockResult where
  | acquired (m : RWMutex)
  | waits
  | fatal
deriving DecidableEq, Repr

/-- The method `RLock`: granted unless the write lock is held. -/
def RWMutex.RLock (m : RWMutex) : LockResult :=
  if m.writer then .waits else .acquired { m with readers := m.readers + 1 }

/-- The method `RUnlock`. -/
def RWMutex.RUnlock (m : RWMutex) : LockResult :=
  if m.readers = 0 then .fatal else .acquired { m with readers := m.readers - 1 }

/-- The method `Lock`: granted only when no read lock and no write lock is
held. -/
def RWMutex.Lock (m : RWMutex) : LockResult :=
  if m.writer || decide (m.readers > 0) then .waits else .acquired { m with writer := true }

/-- The method `Unlock`. -/
def RWMutex.Unlock (m : RWMutex) : LockResult :=
  if m.writer then .acquired { m with writer := false } else .fatal

/-- How one pass of the sweeper's loop body ends. -/
inductive Sweep where
  /-- The pass ran to its `RUnlock`; the cache and mutex it leaves. -/
  | completed (cache : Cache) (mutex : RWMutex)
  /-- The goroutine waits in `mutex.RLock()` of line 306, holding nothing. -/
  | waitsForRead
  /-- The goroutine waits in `mutex.Lock()` of line 309 for the write lock while
  the read lock it took at line 306 is still held: the wait cannot end, since
  only this goroutine could release that read lock. -/
  | waitsForWriteHoldingRead (key : GoString) (cache : Cache) (mutex : RWMutex)
  /-- The expression `y.timeFetched` on a nil `y`. -/
  | nilPointer
  /-- An unlock of an unlocked mutex. -/
  | fatal
deriving DecidableEq, Repr

/-- The `range` loop of lines 307-313 over the entries still to visit, then the
`RUnlock` of line 314.  `now i` is the clock read when the entry of key `i` is
examined. -/
def cacheCleanerLoop (now : GoString → Int) :
    List (GoString × Option website) → RWMutex → Cache → Sweep
  | [], mutex, cache =>
    match mutex.RUnlock with
    | .acquired m => .completed cache m
    | .waits => .fatal
    | .fatal => .fatal
  | (i, y) :: rest, mutex, cache =>
    match y with
    | none => .nilPointer
    | some w =>
      if timeSince (now i) w.timeFetched > CACHE_DURATION then
        match mutex.Lock with
        | .acquired m1 =>
          match m1.Unlock with
          | .acquired m2 => cacheCleanerLoop now rest m2 (cache.del i)
          | _ => .fatal
        | .waits => .waitsForWriteHoldingRead i cache mutex
        | .fatal => .fatal
      else cacheCleanerLoop now rest mutex cache

/-- One pass of the body of the endless loop of `cacheCleaner` (lines 306-314). -/
def cacheCleanerPass (now : GoString → Int) (mutex : RWMutex) (cache : Cache) : Sweep :=
  match mutex.RLock with
  | .acquired m => cacheCleanerLoop now cache m cache
  | .waits => .waitsForRead
  | .fatal => .fatal

end Proxy

/-! # Theorems -/

namespace Proxy

/-! ## Maps -/

section MapLemmas

variable {κ ν : Type} [DecidableEq κ]

theorem GoMap.get_del_self (m : GoMap κ ν) (k : κ) : GoMap.get (GoMap.del m k) k = none := by
  induction m with
  | nil => rfl
  | cons p rest ih =>
    obtain ⟨k', v⟩ := p
    by_cases h : k' = k
    · simpa [GoMap.del, List.filter_cons, h] using ih
    · simpa [GoMap.del, List.filter_cons, h, GoMap.get] using ih

theorem GoMap.get_del_ne (m : GoMap κ ν) {k k' : κ} (hne : k' ≠ k) :
    GoMap.get (GoMap.del m k) k' = GoMap.get m k' := by
  induction m with
  | nil => rfl
  | cons p rest ih =>
    obtain ⟨k₀, v⟩ := p
    by_cases h : k₀ = k
    · subst h
      have h' : ¬ k₀ = k' := fun e => hne e.symm
      simpa [GoMap.del, List.filter_cons, GoMap.get, h'] using ih
    · by_cases h2 : k₀ = k'
      · subst h2
        simp [GoMap.del, List.filter_cons, h, GoMap.get]
      · simpa [GoMap.del, List.filter_cons, h, GoMap.get, h2] using ih

theorem GoMap.get_set_self (m : GoMap κ ν) (k : κ) (v : ν) :
    GoMap.get (GoMap.set m k v) k = some v := by
  simp [GoMap.set, GoMap.get]

theorem GoMap.get_set_ne (m : GoMap κ ν) {k k' : κ} (v : ν) (hne : k' ≠ k) :
    GoMap.get (GoMap.set m k v) k' = GoMap.get m k' := by
  have h : ¬ k = k' := fun e => hne e.symm
  simp [GoMap.set, GoMap.get, h, GoMap.get_del_ne m hne]

end MapLemmas

/-! ## Time -/

theorem timeSince_lt_CACHE_DURATION (now t : Int) :
    timeSince now t < CACHE_DURATION ↔ now - t < CACHE_DURATION := by
  unfold timeSince timeSub CACHE_DURATION maxInt64 minInt64
  split_ifs <;> omega

theorem timeSince_gt_CACHE_DURATION (now t : Int) :
    timeSince now t > CACHE_DURATION ↔ now - t > CACHE_DURATION := by
  unfold timeSince timeSub CACHE_DURATION maxInt64 minInt64
  split_ifs <;> omega

/-! ## The cache lookup -/

/-- C1: `cached(k)` returns true exactly when the cache holds a non-nil entry
under `k` whose age `now - timeFetched` is strictly below `CACHE_DURATION`; when
it returns false `k` is absent from the cache afterwards; the entry of every
other key is the same before and after; and an entry whose age is at least
`CACHE_DURATION` is never reported as a hit. -/
theorem cached_spec (cache : Cache) (k : GoString) (now : Int) :
    ((cached cache k now).1 = true ↔
        ∃ w, GoMap.get cache k = some (some w) ∧ now - w.timeFetched < CACHE_DURATION) ∧
    ((cached cache k now).1 = false → GoMap.get (cached cache k now).2 k = none) ∧
    (∀ k', k' ≠ k → GoMap.get (cached cache k now).2 k' = GoMap.get cache k') ∧
    (∀ w, GoMap.get cache k = some (some w) → CACHE_DURATION ≤ now - w.timeFetched →
        (cached cache k now).1 = false) := by
  unfold cached
  rcases hget : GoMap.get cache k with _ | _ | w
  · refine ⟨by simp, fun _ => GoMap.get_del_self cache k,
      fun k' hne => GoMap.get_del_ne cache hne, by simp⟩
  · refine ⟨by simp, fun _ => GoMap.get_del_self cache k,
      fun k' hne => GoMap.get_del_ne cache hne, by simp⟩
  · by_cases hage : now - w.timeFetched < CACHE_DURATION
    · have h := (timeSince_lt_CACHE_DURATION now w.timeFetched).2 hage
      simp only [h, if_true]
      refine ⟨by simpa using hage, by simp, by simp, ?_⟩
      intro w' hw' hle
      simp only [Option.some.injEq] at hw'
      subst hw'
      omega
    · have h : ¬ timeSince now w.timeFetched < CACHE_DURATION :=
        fun hh => hage ((timeSince_lt_CACHE_DURATION now w.timeFetched).1 hh)
      simp only [h, if_false]
      refine ⟨by simpa using hage, fun _ => GoMap.get_del_self cache k,
        fun k' hne => GoMap.get_del_ne cache hne, by simp⟩

/-! ## Host normalisation -/

theorem findDotsFrom_append (a b : GoString) (i : Nat) :
    findDotsFrom (a ++ b) i = findDotsFrom a i ++ findDotsFrom b (i + a.length) := by
  induction a generalizing i with
  | nil => simp [findDotsFrom]
  | cons c cs ih =>
    have e : i + 1 + cs.length = i + (cs.length + 1) := by omega
    by_cases h : c = '.'
    · simp [findDotsFrom, h, ih, e]
    · simp [findDotsFrom, h, ih, e]

theorem findDotsFrom_of_not_mem {a : GoString} (h : '.' ∉ a) (i : Nat) :
    findDotsFrom a i = [] := by
  induction a generalizing i with
  | nil => rfl
  | cons c cs ih =>
    have hc : c ≠ '.' := fun e => h (by simp [e])
    have hcs : '.' ∉ cs := fun e => h (List.mem_cons_of_mem _ e)
    simp [findDotsFrom, hc, ih hcs]

theorem findDotsFrom_length (a : GoString) (i : Nat) :
    (findDotsFrom a i).length = a.count '.' := by
  induction a generalizing i with
  | nil => rfl
  | cons c cs ih =>
    by_cases h : c = '.'
    · simp [findDotsFrom, h, ih]
    · have h' : (c == '.') = false := by simpa using h
      simp [findDotsFrom, h, ih, List.count_cons, h']

theorem getElem_length_sub_two {α : Type} (l D : List α) (x y : α) (e : l = D ++ [x, y])
    (h : l.length - 2 < l.length) : l[l.length - 2] = x := by
  subst e
  have hi : (D ++ [x, y]).length - 2 = D.length := by simp
  simp only [hi]
  rw [List.getElem_append_right (Nat.le_refl _)]
  simp

theorem cutSubdomains_of_le_one_dot {s : GoString} (h : s.count '.' ≤ 1) :
    cutSubdomains s = s := by
  unfold cutSubdomains FindAllStringIndex
  simp only [findDotsFrom_length]
  rw [dif_neg (by omega)]

theorem cutSubdomains_of_two_dots (p a r : GoString) (ha : '.' ∉ a) (hr : '.' ∉ r) :
    cutSubdomains (p ++ '.' :: (a ++ '.' :: r)) = a ++ '.' :: r := by
  have hd : FindAllStringIndex (p ++ '.' :: (a ++ '.' :: r)) =
      findDotsFrom p 0 ++ [(p.length, p.length + 1),
        (p.length + 1 + a.length, p.length + 1 + a.length + 1)] := by
    unfold FindAllStringIndex
    rw [findDotsFrom_append]
    simp [findDotsFrom, findDotsFrom_append, findDotsFrom_of_not_mem ha,
      findDotsFrom_of_not_mem hr]
  unfold cutSubdomains
  have hlen : (FindAllStringIndex (p ++ '.' :: (a ++ '.' :: r))).length > 1 := by
    rw [hd]; simp
  simp only [dif_pos hlen]
  rw [getElem_length_sub_two _ _ _ _ hd]
  simp

theorem stringsIndexColon_of_not_mem {s : GoString} (h : ':' ∉ s) :
    stringsIndexColon s = -1 := by
  induction s with
  | nil => rfl
  | cons c cs ih =>
    have hc : c ≠ ':' := fun e => h (by simp [e])
    have hcs : ':' ∉ cs := fun e => h (List.mem_cons_of_mem _ e)
    simp [stringsIndexColon, hc, ih hcs]

theorem stringsIndexColon_append_colon {s : GoString} (h : ':' ∉ s) (t : GoString) :
    stringsIndexColon (s ++ ':' :: t) = s.length := by
  induction s with
  | nil => simp [stringsIndexColon]
  | cons c cs ih =>
    have hc : c ≠ ':' := fun e => h (by simp [e])
    have hcs : ':' ∉ cs := fun e => h (List.mem_cons_of_mem _ e)
    simp [stringsIndexColon, hc, ih hcs]
    omega

theorem cutPort_of_not_mem {s : GoString} (h : ':' ∉ s) : cutPort s = s := by
  simp [cutPort, stringsIndexColon_of_not_mem h]

theorem cutPort_append_colon {s : GoString} (h : ':' ∉ s) (t : GoString) :
    cutPort (s ++ ':' :: t) = s := by
  simp [cutPort, stringsIndexColon_append_colon h]
  omega

theorem cutPort_append_portSuffix {s : GoString} (h : ':' ∉ s) (port : Option GoString) :
    cutPort (s ++ portSuffix port) = s := by
  cases port with
  | none => simpa [portSuffix] using cutPort_of_not_mem h
  | some t => simpa [portSuffix] using cutPort_append_colon h t

theorem blacklistKey_of_le_one_dot {s : GoString} (h : s.count '.' ≤ 1) :
    blacklistKey s = cutPort s := by
  unfold blacklistKey
  rw [cutSubdomains_of_le_one_dot h]

theorem dot_not_mem_portSuffix {port : Option GoString} (hport : ∀ t, port = some t → '.' ∉ t) :
    '.' ∉ portSuffix port := by
  cases port with
  | none => simp [portSuffix]
  | some t =>
    have ht := hport t rfl
    simp [portSuffix, ht]

theorem exists_split_of_count_dot_eq_one {h : GoString} (hc : h.count '.' = 1) :
    ∃ a r, h = a ++ '.' :: r ∧ '.' ∉ a ∧ '.' ∉ r := by
  induction h with
  | nil => simp at hc
  | cons c cs ih =>
    by_cases e : c = '.'
    · subst e
      refine ⟨[], cs, rfl, by simp, ?_⟩
      have : cs.count '.' = 0 := by simpa using hc
      exact List.count_eq_zero.1 this
    · have e' : (c == '.') = false := by simpa using e
      have hcs : cs.count '.' = 1 := by simpa [List.count_cons, e'] using hc
      obtain ⟨a, r, hsplit, ha, hr⟩ := ih hcs
      refine ⟨c :: a, r, by simp [hsplit], ?_, hr⟩
      intro hmem
      rcases List.mem_cons.1 hmem with h1 | h1
      · exact e h1.symm
      · exact ha h1

theorem blacklistKey_subdomain {h : GoString} (hcolon : ':' ∉ h) (hc : h.count '.' = 1)
    (p : GoString) (port : Option GoString) (hport : ∀ t, port = some t → '.' ∉ t) :
    blacklistKey (p ++ '.' :: h ++ portSuffix port) = h := by
  obtain ⟨a, r, hsplit, ha, hr⟩ := exists_split_of_count_dot_eq_one hc
  have hr' : '.' ∉ r ++ portSuffix port := by
    intro hmem
    rcases List.mem_append.1 hmem with h1 | h1
    · exact hr h1
    · exact dot_not_mem_portSuffix hport h1
  have e : p ++ '.' :: h ++ portSuffix port = p ++ '.' :: (a ++ '.' :: (r ++ portSuffix port)) := by
    simp [hsplit]
  unfold blacklistKey
  rw [e, cutSubdomains_of_two_dots p a _ ha hr']
  have e2 : a ++ '.' :: (r ++ portSuffix port) = h ++ portSuffix port := by simp [hsplit]
  rw [e2, cutPort_append_portSuffix hcolon]

theorem add2Blacklist_get_self (B : Blacklist) (h : GoString) :
    (GoMap.get (add2Blacklist B h) h).isSome = true := by
  unfold add2Blacklist
  cases hg : GoMap.get B h with
  | none => simp [GoMap.get_set_self]
  | some b => simp [hg]

theorem RmvFromBlacklist_get_self (B : Blacklist) (h : GoString) :
    GoMap.get (RmvFromBlacklist B h) h = none := by
  unfold RmvFromBlacklist
  cases hg : GoMap.get B h with
  | none => simpa using hg
  | some b => simpa using GoMap.get_del_self B h

/-- C3 (amended): for every host `h` that contains no `:` and at most one `.`
and every prior blacklist, `blacklisted(h)` is true right after
`add2Blacklist(h)` and false after a following `RmvFromBlacklist(h)`; when `h`
has exactly one `.`, `blacklisted(s)` is also true after `add2Blacklist(h)` for
every `s` made of a prefix, a `.`, then `h`, with or without a trailing `:port`
whose port holds no `.`. -/
theorem blacklisted_after_add_and_remove (B : Blacklist) (h : GoString)
    (hcolon : ':' ∉ h) (hdots : h.count '.' ≤ 1) :
    blacklisted (add2Blacklist B h) h = true ∧
    blacklisted (RmvFromBlacklist (add2Blacklist B h) h) h = false ∧
    (h.count '.' = 1 → ∀ (p : GoString) (port : Option GoString),
      (∀ t, port = some t → '.' ∉ t) →
      blacklisted (add2Blacklist B h) (p ++ '.' :: h ++ portSuffix port) = true) := by
  have hkey : blacklistKey h = h := by
    rw [blacklistKey_of_le_one_dot hdots, cutPort_of_not_mem hcolon]
  refine ⟨?_, ?_, ?_⟩
  · unfold blacklisted
    rw [hkey]
    exact add2Blacklist_get_self B h
  · unfold blacklisted
    rw [hkey, RmvFromBlacklist_get_self]
    rfl
  · intro hc p port hport
    unfold blacklisted
    rw [blacklistKey_subdomain hcolon hc p port hport]
    exact add2Blacklist_get_self B h

/-- C3 (witness): the amended statement at `h = example.com` on the empty
blacklist. -/
theorem blacklisted_after_add_and_remove_witness :
    ':' ∉ "example.com".toList ∧ "example.com".toList.count '.' ≤ 1 ∧
    (blacklisted (add2Blacklist [] "example.com".toList) "example.com".toList = true ∧
    blacklisted (RmvFromBlacklist (add2Blacklist [] "example.com".toList)
      "example.com".toList) "example.com".toList = false ∧
    ("example.com".toList.count '.' = 1 → ∀ (p : GoString) (port : Option GoString),
      (∀ t, port = some t → '.' ∉ t) →
      blacklisted (add2Blacklist [] "example.com".toList)
        (p ++ '.' :: "example.com".toList ++ portSuffix port) = true)) :=
  ⟨by decide, by decide,
    blacklisted_after_add_and_remove [] "example.com".toList (by decide) (by decide)⟩

/-- C3 (counterexample): registering a three-label host does not block that
host; registering a single-label host does not block its subdomains;
registering a host with a port does not block it; and after registering and
removing `www.example.com` on a blacklist that holds `example.com`, the host is
still reported as blocked. -/
theorem blacklisted_after_add_counterexample :
    blacklisted (add2Blacklist [] "www.example.com".toList) "www.example.com".toList = false ∧
    blacklisted (add2Blacklist [] "localhost".toList) "dev.localhost".toList = false ∧
    blacklisted (add2Blacklist [] "example.com:8080".toList) "example.com:8080".toList = false ∧
    blacklisted (RmvFromBlacklist
      (add2Blacklist [("example.com".toList, true)] "www.example.com".toList)
      "www.example.com".toList) "www.example.com".toList = true := by
  decide

theorem colon_not_mem_joinLabels {labels : List GoString} (h : ∀ l ∈ labels, ':' ∉ l) :
    ':' ∉ joinLabels labels := by
  induction labels with
  | nil => simp [joinLabels]
  | cons l rest ih =>
    have hl : ':' ∉ l := h l (by simp)
    have hrest : ':' ∉ joinLabels rest := ih (fun x hx => h x (List.mem_cons_of_mem _ hx))
    cases rest with
    | nil => simpa [joinLabels] using hl
    | cons l2 rest2 =>
      have e : joinLabels (l :: l2 :: rest2) = l ++ '.' :: joinLabels (l2 :: rest2) := rfl
      rw [e]
      intro hmem
      rcases List.mem_append.1 hmem with h1 | h1
      · exact hl h1
      · rcases List.mem_cons.1 h1 with h2 | h2
        · exact absurd h2 (by decide)
        · exact hrest h2

theorem count_dot_joinLabels {labels : List GoString} (h : ∀ l ∈ labels, '.' ∉ l) :
    (joinLabels labels).count '.' = labels.length - 1 := by
  induction labels with
  | nil => simp [joinLabels]
  | cons l rest ih =>
    have hl : l.count '.' = 0 := List.count_eq_zero.2 (h l (by simp))
    have hrest := ih (fun x hx => h x (List.mem_cons_of_mem _ hx))
    cases rest with
    | nil => simpa [joinLabels] using hl
    | cons l2 rest2 =>
      have e : joinLabels (l :: l2 :: rest2) = l ++ '.' :: joinLabels (l2 :: rest2) := rfl
      rw [e, List.count_append, List.count_cons_self, hl, hrest]
      simp

theorem joinLabels_append_two (init : List GoString) (a b : GoString) (h : init ≠ []) :
    joinLabels (init ++ [a, b]) = joinLabels init ++ '.' :: (a ++ '.' :: b) := by
  induction init with
  | nil => exact absurd rfl h
  | cons l rest ih =>
    cases rest with
    | nil => simp [joinLabels]
    | cons l2 rest2 =>
      have e1 : joinLabels (l :: l2 :: rest2 ++ [a, b]) =
          l ++ '.' :: joinLabels (l2 :: rest2 ++ [a, b]) := rfl
      have e2 : joinLabels (l :: l2 :: rest2) = l ++ '.' :: joinLabels (l2 :: rest2) := rfl
      rw [e1, e2, ih (by simp)]
      simp

theorem exists_init_of_three_le {labels : List GoString} (h : 3 ≤ labels.length) :
    ∃ init a b, labels = init ++ [a, b] ∧ init ≠ [] ∧
      labels.drop (labels.length - 2) = [a, b] := by
  have hsplit := List.take_append_drop (labels.length - 2) labels
  have hlen : (labels.drop (labels.length - 2)).length = 2 := by
    rw [List.length_drop]; omega
  match hd : labels.drop (labels.length - 2), hlen with
  | [a, b], _ =>
    refine ⟨labels.take (labels.length - 2), a, b, ?_, ?_, rfl⟩
    · rw [← hd]; exact hsplit.symm
    · intro hnil
      have := congrArg List.length hnil
      rw [List.length_take] at this
      simp at this
      omega

theorem blacklistKey_joinLabels (labels : List GoString) (port : Option GoString)
    (hlabels : ∀ l ∈ labels, '.' ∉ l ∧ ':' ∉ l) (hport : ∀ t, port = some t → '.' ∉ t) :
    blacklistKey (joinLabels labels ++ portSuffix port) = normalizedHost labels := by
  have hdotP : (portSuffix port).count '.' = 0 :=
    List.count_eq_zero.2 (dot_not_mem_portSuffix hport)
  by_cases hn : labels.length ≤ 2
  · have hcount : (joinLabels labels ++ portSuffix port).count '.' ≤ 1 := by
      rw [List.count_append, hdotP, count_dot_joinLabels (fun l hl => (hlabels l hl).1)]
      omega
    rw [blacklistKey_of_le_one_dot hcount,
      cutPort_append_portSuffix (colon_not_mem_joinLabels (fun l hl => (hlabels l hl).2))]
    simp [normalizedHost, hn]
  · obtain ⟨init, a, b, hsplit, hinit, hdrop⟩ := exists_init_of_three_le (by omega : 3 ≤ labels.length)
    have ha : '.' ∉ a ∧ ':' ∉ a := hlabels a (by rw [hsplit]; simp)
    have hb : '.' ∉ b ∧ ':' ∉ b := hlabels b (by rw [hsplit]; simp)
    have hb' : '.' ∉ b ++ portSuffix port := by
      intro hmem
      rcases List.mem_append.1 hmem with h1 | h1
      · exact hb.1 h1
      · exact dot_not_mem_portSuffix hport h1
    have hnorm : normalizedHost labels = a ++ '.' :: b := by
      simp [normalizedHost, hn, hdrop, joinLabels]
    have hab : ':' ∉ a ++ '.' :: b := by
      intro hmem
      rcases List.mem_append.1 hmem with h1 | h1
      · exact ha.2 h1
      · rcases List.mem_cons.1 h1 with h2 | h2
        · exact absurd h2 (by decide)
        · exact hb.2 h2
    have e : joinLabels labels ++ portSuffix port =
        joinLabels init ++ '.' :: (a ++ '.' :: (b ++ portSuffix port)) := by
      conv_lhs => rw [hsplit]
      rw [joinLabels_append_two init a b hinit]
      simp
    have e2 : a ++ '.' :: (b ++ portSuffix port) = (a ++ '.' :: b) ++ portSuffix port := by simp
    unfold blacklistKey
    rw [e, cutSubdomains_of_two_dots _ a _ ha.1 hb', e2, cutPort_append_portSuffix hab, hnorm]

/-- C4: for every blacklist `B`, every list of labels holding neither `.` nor
`:`, and every optional port holding no `.`, `blacklisted` on the host
`l1.l2. ... .ln[:port]` is true exactly when `B` has the normalized host as a
key: the host without its port for at most two labels, the last two labels
otherwise.  With `B = {example.com}` the hosts `sub.ads.example.com:443` and
`example.com` are blocked and `example.org` is not. -/
theorem blacklisted_iff_normalizedHost (B : Blacklist) (labels : List GoString)
    (port : Option GoString)
    (hlabels : ∀ l ∈ labels, '.' ∉ l ∧ ':' ∉ l) (hport : ∀ t, port = some t → '.' ∉ t) :
    (blacklisted B (joinLabels labels ++ portSuffix port) = true ↔
      (GoMap.get B (normalizedHost labels)).isSome = true) ∧
    blacklisted [("example.com".toList, true)] "sub.ads.example.com:443".toList = true ∧
    blacklisted [("example.com".toList, true)] "example.com".toList = true ∧
    blacklisted [("example.com".toList, true)] "example.org".toList = false := by
  refine ⟨?_, by decide, by decide, by decide⟩
  unfold blacklisted
  rw [blacklistKey_joinLabels labels port hlabels hport]

/-- C4 (witness): the labels `sub`, `ads`, `example`, `com` with port `443`. -/
theorem blacklisted_iff_normalizedHost_witness :
    (∀ l ∈ ["sub".toList, "ads".toList, "example".toList, "com".toList],
      '.' ∉ l ∧ ':' ∉ l) ∧
    (∀ t, some "443".toList = some t → '.' ∉ t) ∧
    joinLabels ["sub".toList, "ads".toList, "example".toList, "com".toList] ++
      portSuffix (some "443".toList) = "sub.ads.example.com:443".toList ∧
    normalizedHost ["sub".toList, "ads".toList, "example".toList, "com".toList] =
      "example.com".toList ∧
    (blacklisted [("example.com".toList, true)]
        (joinLabels ["sub".toList, "ads".toList, "example".toList, "com".toList] ++
          portSuffix (some "443".toList)) = true ↔
      (GoMap.get [("example.com".toList, true)]
        (normalizedHost ["sub".toList, "ads".toList, "example".toList, "com".toList])).isSome
        = true) :=
  ⟨by decide, by intro t ht; cases ht; decide, by decide, by decide,
    (blacklisted_iff_normalizedHost [("example.com".toList, true)]
      ["sub".toList, "ads".toList, "example".toList, "com".toList] (some "443".toList)
      (by decide) (by intro t ht; cases ht; decide)).1⟩

/-! ## The TTL constant -/

/-- C2 (evaluation at the failing input): the constant of line 20 is 2000
seconds in nanoseconds, not the 20 seconds its comment announces, and `cached`
reports an entry fetched 21 seconds ago as a hit, leaving the cache as it was. -/
theorem CACHE_DURATION_is_2000_seconds :
    CACHE_DURATION = 2000 * second ∧ CACHE_DURATION ≠ 20 * second ∧
    cached [("http://example.com/a".toList, some { headers := [], body := [], timeFetched := 0 })]
        "http://example.com/a".toList (21 * second) =
      (true, [("http://example.com/a".toList,
        some { headers := [], body := [], timeFetched := 0 })]) := by
  decide

/-! ## The handlers -/

/-- C5: for a request of any method whose host is blacklisted, `mainHandler`
sends status 403 with the headers the writer had, writes no body, leaves the
blacklist, the cache, `webTimes` and `cachetimes` as they were, makes no fetch,
dials and hijacks nothing, and returns without a panic. -/
theorem mainHandler_blacklisted (net : Network) (clock : Clock) (g : Globals)
    (writer : ResponseWriter) (request : Request)
    (hblock : blacklisted g.blacklist request.host = true) (hfresh : writer.sent = none) :
    (mainHandler net clock g writer request).writer.sent =
      some (StatusForbidden, writer.header) ∧
    (mainHandler net clock g writer request).writer.body = writer.body ∧
    (mainHandler net clock g writer request).globals = g ∧
    (mainHandler net clock g writer request).events = [] ∧
    (mainHandler net clock g writer request).panicked = none := by
  simp [mainHandler, hblock, ResponseWriter.WriteHeader, hfresh]

/-- C5 (witness): a CONNECT request to `sub.ads.example.com:443` while the
blacklist holds `example.com`, with a network on which every call would
succeed. -/
theorem mainHandler_blacklisted_witness :
    blacklisted [("example.com".toList, true)] "sub.ads.example.com:443".toList = true ∧
    ResponseWriter.fresh.sent = none ∧
    (mainHandler
        { clientDo := .ok { requestURL := [], header := [], readAll := .ok [] },
          dial := .ok { isTCP := true }, hijacker := true, hijack := .ok { isTCP := true } }
        { lookup := 0, timer := 0, store := 0, fin := 0 }
        { blacklist := [("example.com".toList, true)], cache := [], webTimes := [],
          cachetimes := [] }
        ResponseWriter.fresh
        { method := MethodConnect, url := "//sub.ads.example.com:443".toList,
          host := "sub.ads.example.com:443".toList }).events = [] :=
  ⟨by decide, rfl,
    (mainHandler_blacklisted
      { clientDo := .ok { requestURL := [], header := [], readAll := .ok [] },
        dial := .ok { isTCP := true }, hijacker := true, hijack := .ok { isTCP := true } }
      { lookup := 0, timer := 0, store := 0, fin := 0 }
      { blacklist := [("example.com".toList, true)], cache := [], webTimes := [],
        cachetimes := [] }
      ResponseWriter.fresh
      { method := MethodConnect, url := "//sub.ads.example.com:443".toList,
        host := "sub.ads.example.com:443".toList }
      (by decide) rfl).2.2.2.1⟩

/-- C8: when the dial fails, `HTTPSHandler` sends status 503 (never 200), its
only contact with the outside world is the dial itself, so it hijacks nothing
and starts no `copyTCP`, it leaves the global maps alone and returns. -/
theorem HTTPSHandler_dial_failure (net : Network) (g : Globals) (writer : ResponseWriter)
    (request : Request) (e : List Nat)
    (hdial : net.dial = .error e) (hfresh : writer.sent = none) :
    (∃ hdr, (HTTPSHandler net g writer request).writer.sent =
      some (StatusServiceUnavailable, hdr)) ∧
    (∀ hdr, (HTTPSHandler net g writer request).writer.sent ≠ some (StatusOK, hdr)) ∧
    (HTTPSHandler net g writer request).writer.body = writer.body ++ (e ++ [10]) ∧
    (HTTPSHandler net g writer request).events = [Event.dial request.host] ∧
    Event.hijack ∉ (HTTPSHandler net g writer request).events ∧
    (∀ d, Event.copyTCP d ∉ (HTTPSHandler net g writer request).events) ∧
    (HTTPSHandler net g writer request).globals = g ∧
    (HTTPSHandler net g writer request).panicked = none := by
  simp [HTTPSHandler, hdial, httpError, ResponseWriter.WriteHeader, ResponseWriter.Write,
    hfresh, StatusServiceUnavailable, StatusOK]

/-- C8 (witness): a CONNECT to `unreachable-host:443` whose dial fails. -/
theorem HTTPSHandler_dial_failure_witness :
    (HTTPSHandler
        { clientDo := .error [], dial := .error (asciiBytes "i/o timeout"), hijacker := true,
          hijack := .ok { isTCP := true } }
        { blacklist := [], cache := [], webTimes := [], cachetimes := [] }
        ResponseWriter.fresh
        { method := MethodConnect, url := "//unreachable-host:443".toList,
          host := "unreachable-host:443".toList }).events =
      [Event.dial "unreachable-host:443".toList] :=
  (HTTPSHandler_dial_failure
      { clientDo := .error [], dial := .error (asciiBytes "i/o timeout"), hijacker := true,
        hijack := .ok { isTCP := true } }
      { blacklist := [], cache := [], webTimes := [], cachetimes := [] }
      ResponseWriter.fresh
      { method := MethodConnect, url := "//unreachable-host:443".toList,
        host := "unreachable-host:443".toList }
      (asciiBytes "i/o timeout") rfl rfl).2.2.2.1

/-! ## Building a cache entry -/

theorem get_foldl_set_values (k : GoString) (vs : List GoString)
    (h : GoMap GoString GoString) (k' : GoString) :
    GoMap.get (vs.foldl (fun h y => GoMap.set h k y) h) k' =
      if k' = k then (match vs.getLast? with
        | some v => some v
        | none => GoMap.get h k) else GoMap.get h k' := by
  induction vs generalizing h with
  | nil =>
    by_cases e : k' = k
    · simp [e]
    · simp [e]
  | cons v rest ih =>
    rw [List.foldl_cons, ih]
    by_cases e : k' = k
    · subst e
      cases rest with
      | nil => simp [GoMap.get_set_self]
      | cons v2 rest2 =>
        simp only [List.getLast?_cons_cons, if_true]
        cases hl : (v2 :: rest2).getLast? with
        | none => simp at hl
        | some x => rfl
    · simp [e, GoMap.get_set_ne _ _ e]

theorem GoMap.get_eq_none_of_not_mem_keys {κ ν : Type} [DecidableEq κ] (m : GoMap κ ν) (k : κ)
    (h : k ∉ GoMap.keys m) : GoMap.get m k = none := by
  induction m with
  | nil => rfl
  | cons p rest ih =>
    obtain ⟨k₀, v⟩ := p
    have h1 : ¬ k₀ = k := fun e => h (by simp [GoMap.keys, e])
    have h2 : k ∉ GoMap.keys rest := fun e => h (by
      simp only [GoMap.keys, List.map_cons, List.mem_cons]
      exact Or.inr e)
    simp [GoMap.get, h1, ih h2]

theorem get_foldl_newSite (entries : GoMap GoString (List GoString))
    (hnodup : (GoMap.keys entries).Nodup) (h : GoMap GoString GoString) (k : GoString) :
    GoMap.get (entries.foldl (fun h p => p.2.foldl (fun h y => GoMap.set h p.1 y) h) h) k =
      match (GoMap.get entries k).bind List.getLast? with
      | some v => some v
      | none => GoMap.get h k := by
  induction entries generalizing h with
  | nil => rfl
  | cons p rest ih =>
    obtain ⟨k₀, vs⟩ := p
    have hn : k₀ ∉ GoMap.keys rest ∧ (GoMap.keys rest).Nodup := by
      simpa [GoMap.keys] using hnodup
    rw [List.foldl_cons, ih hn.2, get_foldl_set_values]
    by_cases e : k = k₀
    · subst e
      have hrest : GoMap.get rest k = none := GoMap.get_eq_none_of_not_mem_keys rest k hn.1
      simp [GoMap.get, hrest]
    · have e' : ¬ k₀ = k := fun x => e x.symm
      simp [GoMap.get, e, e']

theorem GoMap.keys_del_subset {κ ν : Type} [DecidableEq κ] (m : GoMap κ ν) (k x : κ)
    (h : x ∈ GoMap.keys (GoMap.del m k)) : x ∈ GoMap.keys m ∧ x ≠ k := by
  simp only [GoMap.keys, GoMap.del, List.mem_map, List.mem_filter] at h ⊢
  obtain ⟨p, ⟨hp, hne⟩, rfl⟩ := h
  exact ⟨⟨p, hp, rfl⟩, by simpa using hne⟩

theorem GoMap.keys_set_nodup {κ ν : Type} [DecidableEq κ] (m : GoMap κ ν) (k : κ) (v : ν)
    (h : (GoMap.keys m).Nodup) : (GoMap.keys (GoMap.set m k v)).Nodup := by
  have hsub : List.Sublist (GoMap.keys (GoMap.del m k)) (GoMap.keys m) :=
    List.Sublist.map _ (List.filter_sublist _)
  have hd : (GoMap.keys (GoMap.del m k)).Nodup := List.Nodup.sublist hsub h
  have hk : k ∉ GoMap.keys (GoMap.del m k) := fun hx => (GoMap.keys_del_subset m k k hx).2 rfl
  simpa [GoMap.set, GoMap.keys] using And.intro hk hd

theorem keys_nodup_foldl_values (k : GoString) (vs : List GoString)
    (h : GoMap GoString GoString) (hn : (GoMap.keys h).Nodup) :
    (GoMap.keys (vs.foldl (fun h y => GoMap.set h k y) h)).Nodup := by
  induction vs generalizing h with
  | nil => exact hn
  | cons v rest ih => exact ih _ (GoMap.keys_set_nodup h k v hn)

theorem keys_nodup_foldl_newSite (entries : GoMap GoString (List GoString))
    (h : GoMap GoString GoString) (hn : (GoMap.keys h).Nodup) :
    (GoMap.keys (entries.foldl
      (fun h p => p.2.foldl (fun h y => GoMap.set h p.1 y) h) h)).Nodup := by
  induction entries generalizing h with
  | nil => exact hn
  | cons p rest ih => exact ih _ (keys_nodup_foldl_values p.1 p.2 h hn)

/-- C9: for every response header map (a Go map, so no name occurs twice) and
every body, the entry built by `newSite` has exactly the given body, its
`headers` read at a name gives the last value of the list the response holds
under that name and nothing when that list is empty or the name is not in the
response, and no name occurs twice in `headers`. -/
theorem newSite_spec (now : Int) (header : Header) (body : List Nat)
    (hnodup : (GoMap.keys header).Nodup) :
    (newSite now header body).body = body ∧
    (newSite now header body).timeFetched = now ∧
    (∀ k, GoMap.get (newSite now header body).headers k =
      (GoMap.get header k).bind List.getLast?) ∧
    (GoMap.keys (newSite now header body).headers).Nodup := by
  refine ⟨rfl, rfl, ?_, ?_⟩
  · intro k
    unfold newSite
    simp only
    rw [get_foldl_newSite header hnodup]
    cases (GoMap.get header k).bind List.getLast? <;> rfl
  · exact keys_nodup_foldl_newSite header [] List.nodup_nil

/-- C9 (witness): a response with a repeated `Set-Cookie`, a single `Server` and
a name with no value. -/
theorem newSite_spec_witness :
    (GoMap.keys [("Set-Cookie".toList, ["a=1".toList, "b=2".toList]),
      ("Server".toList, ["nginx".toList]), ("X-Empty".toList, [])]).Nodup ∧
    (newSite 7 [("Set-Cookie".toList, ["a=1".toList, "b=2".toList]),
      ("Server".toList, ["nginx".toList]), ("X-Empty".toList, [])] [104, 105]).headers =
      [("Server".toList, "nginx".toList), ("Set-Cookie".toList, "b=2".toList)] ∧
    (∀ k, GoMap.get (newSite 7 [("Set-Cookie".toList, ["a=1".toList, "b=2".toList]),
      ("Server".toList, ["nginx".toList]), ("X-Empty".toList, [])] [104, 105]).headers k =
      (GoMap.get [("Set-Cookie".toList, ["a=1".toList, "b=2".toList]),
      ("Server".toList, ["nginx".toList]), ("X-Empty".toList, [])] k).bind List.getLast?) :=
  ⟨by decide, by decide,
    (newSite_spec 7 [("Set-Cookie".toList, ["a=1".toList, "b=2".toList]),
      ("Server".toList, ["nginx".toList]), ("X-Empty".toList, [])] [104, 105]
      (by decide)).2.2.1⟩

/-! ## A miss followed by a hit -/

/-- C6 (evaluation at the failing input): a GET for `http://example.com/a` on an
empty cache, answered by the origin after a redirect to `http://example.com/b`
with body `hi`.  The handler returns and relays the body, but the entry is
stored under the URL of the response's request, `/b`; the key `/a` stays absent,
and a second request for `/a` one second later contacts the origin again. -/
theorem mainHandler_redirect_not_cached_under_request_key :
    let net : Network :=
      { clientDo := .ok { requestURL := "http://example.com/b".toList,
                          header := [("Server".toList, ["nginx".toList])],
                          readAll := .ok [104, 105] },
        dial := .error [], hijacker := false, hijack := .error [] }
    let request : Request :=
      { method := "GET".toList, url := "http://example.com/a".toList,
        host := "example.com".toList }
    let first := mainHandler net { lookup := 0, timer := 0, store := 0, fin := 0 }
      { blacklist := [], cache := [], webTimes := [], cachetimes := [] }
      ResponseWriter.fresh request
    let again := mainHandler net
      { lookup := second, timer := second, store := second, fin := second }
      first.globals ResponseWriter.fresh request
    first.panicked = none ∧ first.writer.body = [104, 105] ∧
    GoMap.get first.globals.cache "http://example.com/a".toList = none ∧
    GoMap.get first.globals.cache "http://example.com/b".toList =
      some (some { headers := [("Server".toList, "nginx".toList)], body := [104, 105],
                   timeFetched := 0 }) ∧
    (cached first.globals.cache "http://example.com/a".toList second).1 = false ∧
    again.events = [Event.fetch "http://example.com/a".toList] := by
  decide

/-- When the response was obtained by the request itself (no redirect was
followed, so `res.Request.URL` is the request URL), a miss on a non-CONNECT
request to an allowed host stores the body under the request key and relays
it. -/
theorem mainHandler_miss_stores (net : Network) (clock : Clock) (g : Globals)
    (writer : ResponseWriter) (request : Request) (res : Response) (b : List Nat)
    (hallow : blacklisted g.blacklist request.host = false)
    (hmethod : MethodConnect ≠ request.method)
    (hmiss : (cached g.cache request.url clock.lookup).1 = false)
    (hdo : net.clientDo = .ok res) (hread : res.readAll = .ok b)
    (hurl : res.requestURL = request.url) :
    (mainHandler net clock g writer request).panicked = none ∧
    (mainHandler net clock g writer request).events = [Event.fetch request.url] ∧
    (mainHandler net clock g writer request).writer.body = writer.body ++ b ∧
    GoMap.get (mainHandler net clock g writer request).globals.cache request.url =
      some (some (newSite clock.store res.header b)) := by
  simp [mainHandler, hallow, hmethod, hmiss, HTTPHandler, hdo, hread, hurl, recordTime,
    ResponseWriter.Write, ResponseWriter.WriteHeader, GoMap.get_set_self]
  cases writer.sent <;> simp

/-- A non-CONNECT request to an allowed host whose key holds an entry younger
than `CACHE_DURATION` is served from the cache: status 200 with the stored
headers set on the writer, the stored body, no contact with the origin, and the
cache as it was. -/
theorem mainHandler_hit_serves (net : Network) (clock : Clock) (g : Globals)
    (writer : ResponseWriter) (request : Request) (site : website)
    (hallow : blacklisted g.blacklist request.host = false)
    (hmethod : MethodConnect ≠ request.method)
    (hget : GoMap.get g.cache request.url = some (some site))
    (hage : clock.lookup - site.timeFetched < CACHE_DURATION)
    (hfresh : writer.sent = none) :
    (mainHandler net clock g writer request).panicked = none ∧
    (mainHandler net clock g writer request).events = [] ∧
    (mainHandler net clock g writer request).writer.sent =
      some (StatusOK, copySiteHeaders writer.header site.headers) ∧
    (mainHandler net clock g writer request).writer.body = writer.body ++ site.body ∧
    (mainHandler net clock g writer request).globals.cache = g.cache := by
  have hlt := (timeSince_lt_CACHE_DURATION clock.lookup site.timeFetched).2 hage
  simp [mainHandler, hallow, hmethod, cached, hget, hlt, recordTime,
    ResponseWriter.Write, ResponseWriter.WriteHeader, hfresh, StatusOK]

/-! ## A failing fetch -/

/-- What the code does on a failing fetch, for every input: on a non-CONNECT
request to an allowed host whose URL is not cached and whose upstream fetch
fails, in the round trip or in the body read, `mainHandler` is left by the panic
of `log.Panic` carrying that error, with no status line and no body byte
written; the cache is the one the lookup left, and `webTimes`, `cachetimes` and
the blacklist are as they were. -/
theorem mainHandler_fetch_failure_panics (net : Network) (clock : Clock) (g : Globals)
    (writer : ResponseWriter) (request : Request) (e : List Nat)
    (hallow : blacklisted g.blacklist request.host = false)
    (hmethod : MethodConnect ≠ request.method)
    (hmiss : (cached g.cache request.url clock.lookup).1 = false)
    (hfail : net.clientDo = .error e ∨
      ∃ res, net.clientDo = .ok res ∧ res.readAll = .error e) :
    (mainHandler net clock g writer request).panicked = some e ∧
    (mainHandler net clock g writer request).writer.sent = writer.sent ∧
    (mainHandler net clock g writer request).writer.body = writer.body ∧
    (mainHandler net clock g writer request).events = [Event.fetch request.url] ∧
    (mainHandler net clock g writer request).globals.cache =
      (cached g.cache request.url clock.lookup).2 ∧
    (mainHandler net clock g writer request).globals.webTimes = g.webTimes ∧
    (mainHandler net clock g writer request).globals.cachetimes = g.cachetimes ∧
    (mainHandler net clock g writer request).globals.blacklist = g.blacklist := by
  rcases hfail with hdo | ⟨res, hdo, hread⟩
  · simp [mainHandler, hallow, hmethod, hmiss, HTTPHandler, hdo]
  · simp [mainHandler, hallow, hmethod, hmiss, HTTPHandler, hdo, hread]

/-- C7 (evaluation at the failing input): on a GET for `http://nosuch.invalid/`
whose round trip fails, and on a GET whose body read fails, the handler does
not return: it panics with the error, and no status, 5xx or other, has been
written to the client.  The sibling path does answer: on a CONNECT whose dial
fails with the same error, `mainHandler` returns with status 503 sent. -/
theorem mainHandler_fetch_failure_panics_without_status :
    (mainHandler
        { clientDo := .error (asciiBytes "no such host"), dial := .error [],
          hijacker := false, hijack := .error [] }
        { lookup := 0, timer := 0, store := 0, fin := 0 }
        { blacklist := [], cache := [], webTimes := [], cachetimes := [] }
        ResponseWriter.fresh
        { method := "GET".toList, url := "http://nosuch.invalid/".toList,
          host := "nosuch.invalid".toList }).panicked = some (asciiBytes "no such host") ∧
    (mainHandler
        { clientDo := .error (asciiBytes "no such host"), dial := .error [],
          hijacker := false, hijack := .error [] }
        { lookup := 0, timer := 0, store := 0, fin := 0 }
        { blacklist := [], cache := [], webTimes := [], cachetimes := [] }
        ResponseWriter.fresh
        { method := "GET".toList, url := "http://nosuch.invalid/".toList,
          host := "nosuch.invalid".toList }).writer.sent = none ∧
    (mainHandler
        { clientDo := .ok { requestURL := "http://example.com/a".toList, header := [],
                            readAll := .error (asciiBytes "unexpected EOF") },
          dial := .error [], hijacker := false, hijack := .error [] }
        { lookup := 0, timer := 0, store := 0, fin := 0 }
        { blacklist := [], cache := [], webTimes := [], cachetimes := [] }
        ResponseWriter.fresh
        { method := "GET".toList, url := "http://example.com/a".toList,
          host := "example.com".toList }).panicked = some (asciiBytes "unexpected EOF") ∧
    (mainHandler
        { clientDo := .ok { requestURL := "http://example.com/a".toList, header := [],
                            readAll := .error (asciiBytes "unexpected EOF") },
          dial := .error [], hijacker := false, hijack := .error [] }
        { lookup := 0, timer := 0, store := 0, fin := 0 }
        { blacklist := [], cache := [], webTimes := [], cachetimes := [] }
        ResponseWriter.fresh
        { method := "GET".toList, url := "http://example.com/a".toList,
          host := "example.com".toList }).writer.sent = none ∧
    (mainHandler
        { clientDo := .error [], dial := .error (asciiBytes "no such host"),
          hijacker := true, hijack := .error [] }
        { lookup := 0, timer := 0, store := 0, fin := 0 }
        { blacklist := [], cache := [], webTimes := [], cachetimes := [] }
        ResponseWriter.fresh
        { method := MethodConnect, url := "//nosuch.invalid:443".toList,
          host := "nosuch.invalid:443".toList }).panicked = none ∧
    ((mainHandler
        { clientDo := .error [], dial := .error (asciiBytes "no such host"),
          hijacker := true, hijack := .error [] }
        { lookup := 0, timer := 0, store := 0, fin := 0 }
        { blacklist := [], cache := [], webTimes := [], cachetimes := [] }
        ResponseWriter.fresh
        { method := MethodConnect, url := "//nosuch.invalid:443".toList,
          host := "nosuch.invalid:443".toList }).writer.sent.map Prod.fst) =
      some StatusServiceUnavailable := by
  refine ⟨?_, ?_, ?_, ?_, ?_, ?_⟩ <;> decide

/-! ## The sweeper -/

/-- C10 (evaluation at the failing input): the mutex is free, the cache holds
one entry fetched 2001 seconds ago.  The pass takes the read lock, finds the
entry older than the TTL and calls `Lock` with its own read lock still held:
it waits for the write lock forever, and the entry is still in the cache. -/
theorem cacheCleanerPass_stale_entry_deadlocks :
    cacheCleanerPass (fun _ => 2001 * second) { readers := 0, writer := false }
        [("http://example.com/a".toList,
          some { headers := [], body := [104, 105], timeFetched := 0 })] =
      Sweep.waitsForWriteHoldingRead "http://example.com/a".toList
        [("http://example.com/a".toList,
          some { headers := [], body := [104, 105], timeFetched := 0 })]
        { readers := 1, writer := false } := by
  decide

theorem RWMutex.Lock_waits_of_readers_pos (m : RWMutex) (h : m.readers > 0) :
    m.Lock = LockResult.waits := by
  simp [RWMutex.Lock, h]

theorem cacheCleanerLoop_completed (now : GoString → Int)
    (entries : List (GoString × Option website)) (mutex : RWMutex) (cache c : Cache)
    (m : RWMutex) (hr : mutex.readers > 0)
    (hdone : cacheCleanerLoop now entries mutex cache = Sweep.completed c m) :
    c = cache ∧
    ∀ k w, (k, some w) ∈ entries → ¬ (now k - w.timeFetched > CACHE_DURATION) := by
  induction entries with
  | nil =>
    have hne : ¬ mutex.readers = 0 := by omega
    simp only [cacheCleanerLoop, RWMutex.RUnlock, hne, if_false, Sweep.completed.injEq] at hdone
    exact ⟨hdone.1.symm, by simp⟩
  | cons p rest ih =>
    obtain ⟨i, y⟩ := p
    cases y with
    | none => simp [cacheCleanerLoop] at hdone
    | some w =>
      by_cases hst : timeSince (now i) w.timeFetched > CACHE_DURATION
      · simp [cacheCleanerLoop, hst, RWMutex.Lock_waits_of_readers_pos mutex hr] at hdone
      · simp only [cacheCleanerLoop, hst, if_false] at hdone
        obtain ⟨hc, hrest⟩ := ih hdone
        refine ⟨hc, ?_⟩
        intro k w' hmem
        rcases List.mem_cons.1 hmem with h1 | h1
        · simp only [Prod.mk.injEq, Option.some.injEq] at h1
          obtain ⟨rfl, rfl⟩ := h1
          exact fun hh => hst ((timeSince_gt_CACHE_DURATION (now k) w'.timeFetched).2 hh)
        · exact hrest k w' h1

/-- The sweeper can never evict: a pass that runs to completion leaves the
cache as it found it, and it completes only when no entry was older than the
TTL when examined. -/
theorem cacheCleanerPass_completed (now : GoString → Int) (mutex : RWMutex) (cache c : Cache)
    (m : RWMutex) (hdone : cacheCleanerPass now mutex cache = Sweep.completed c m) :
    c = cache ∧
    ∀ k w, (k, some w) ∈ cache → ¬ (now k - w.timeFetched > CACHE_DURATION) := by
  unfold cacheCleanerPass RWMutex.RLock at hdone
  by_cases hw : mutex.writer = true
  · simp [hw] at hdone
  · simp only [hw, Bool.false_eq_true, if_false] at hdone
    exact cacheCleanerLoop_completed now cache _ cache c m (by simp) hdone

end Proxy
